import Mathlib

/-!
# Typographer motion-language core: a shallow embedding

This file embeds the motion-language compiler of the Typographer
repository in Lean 4 and proves properties of it:

* `lib/utils/motion-parser.ts` (the grouping version): `parseMotionLanguage`,
  `validateMotionSyntax`, `calculateMotionTiming`;
* `lib/utils/positioning.ts`: `calculateWordPositions`, the spiral
  collision search, `updatePositionsForResize`, `createLayoutConfig`;
* `lib/utils/timing-calculator.ts`: `calculateTotalDuration`;
* the store's total-duration formula from `typographer-store.ts`.

Modelling conventions:

* JavaScript numbers in the parser, validator and scheduler are modelled
  as `ℚ` (every literal involved is decimal, and no irrational operation
  occurs there); positions in the layout engine are `ℝ`, because the
  spiral candidate generator uses `cos`/`sin` of real angles.
* `Date.now()` is passed in explicitly as `now : ℕ` (it only feeds the
  generated `id` strings); `Math.random()` is passed in as a stream
  `rand : ℕ → ℝ`, consumed two values per motion-language word.
* JavaScript string loops (`String.prototype.split` with a regex,
  `replace(/<[^>]*>/g,'')`, `replace(/\s+/g,' ')`) are implemented as
  fuel-indexed structural recursions over `List Char`; the fuel is set to
  `length + 1`, which the scan (consuming at least one character per
  step) never exhausts.
* `parseFloat` is modelled on the grammar fragment reachable here
  (optional sign, digits, optional dot and fraction digits; `none`
  plays the role of `NaN`); the regex captures `\d*\.?\d+` this code
  ever feeds it contain no exponent and no sign.
-/

/-! ## Data model (`types/typographer.ts`, fields as used by the core) -/

inductive MotionDirection where
  | L | R | F | B
deriving DecidableEq, Repr

inductive ZoomType where
  | ZOOM_IN | ZOOM_OUT
deriving DecidableEq, Repr

inductive AnimationType where
  | FADE_IN | MOTION_LANGUAGE
deriving DecidableEq, Repr

structure MotionConfig where
  entryDirection : MotionDirection
  speed : ℚ
  displayDuration : ℚ
  zoomType : ZoomType
  exitDirection : MotionDirection
  entrySpeed : ℚ
  exitSpeed : ℚ
deriving DecidableEq, Repr

structure WordData where
  id : String
  text : String
  animation : AnimationType
  motionConfig : Option MotionConfig
  startTime : ℚ
  duration : ℚ
  easing : String
  position : ℝ × ℝ
  index : ℕ

/-- A default `WordData`, used only as the out-of-range value for `List.getD`. -/
def w0 : WordData :=
  ⟨"", "", AnimationType.FADE_IN, none, 0, 0, "easeOut", ((0 : ℝ), (0 : ℝ)), 0⟩

/-! ## JavaScript character classes and string helpers -/

/-- The whitespace class `\s` (ASCII part; the inputs of interest use
only the plain space). -/
def jsIsSpace (c : Char) : Bool :=
  c = ' ' || c = '\t' || c = '\n' || c = '\r' || c = '\x0b' || c = '\x0c'

/-- The word-character class `\w` = `[A-Za-z0-9_]`. -/
def jsIsWordChar (c : Char) : Bool :=
  c.isAlphanum || c = '_'

/-- `^\w+$`. -/
def isWordTok (t : List Char) : Bool :=
  !t.isEmpty && t.all jsIsWordChar

/-- Split a character list at its first `'>'`: `some (before, after)`
(the `'>'` itself belongs to neither part), or `none` when there is no
`'>'`.  This is how the regex `<[^>]*>` finds the end of a tag. -/
def splitAtFirstGt : List Char → Option (List Char × List Char)
  | [] => none
  | c :: cs =>
    if c = '>' then some ([], cs)
    else (splitAtFirstGt cs).map (fun p => (c :: p.1, p.2))

/-- Whether the regex alternative `<[^>]*>` matches at a `'<'` whose
remaining input is `rest`. -/
def isTagStart (c : Char) (rest : List Char) : Bool :=
  c = '<' && (splitAtFirstGt rest).isSome

/-- One plain chunk of `text.split(/(\s+|<[^>]*>)/)`: the maximal run of
characters in which no separator alternative matches. -/
def takeChunk : List Char → List Char × List Char
  | [] => ([], [])
  | c :: cs =>
    if jsIsSpace c || isTagStart c cs then ([], c :: cs)
    else
      let p := takeChunk cs
      (c :: p.1, p.2)

/-- `text.split(/(\s+|<[^>]*>)/).filter(token => token.trim())`:
whitespace runs are dropped, a `<...>` (through the first `'>'`) is one
token, every other maximal run is one token.  Fuel-indexed; at least one
character is consumed per step. -/
def tokenizeF : ℕ → List Char → List (List Char)
  | 0, _ => []
  | _ + 1, [] => []
  | n + 1, c :: cs =>
    if jsIsSpace c then tokenizeF n cs
    else if c = '<' then
      match splitAtFirstGt cs with
      | some (inside, rest) => ('<' :: inside ++ ['>']) :: tokenizeF n rest
      | none =>
        let p := takeChunk (c :: cs)
        p.1 :: tokenizeF n p.2
    else
      let p := takeChunk (c :: cs)
      p.1 :: tokenizeF n p.2

def tokenize (cs : List Char) : List (List Char) :=
  tokenizeF (cs.length + 1) cs

/-- `text.replace(/<[^>]*>/g, '')`: scanning left to right, a `'<'`
that has a later `'>'` is removed together with everything up to and
including that first `'>'`; any other character stays. -/
def jsStripTagsF : ℕ → List Char → List Char
  | 0, _ => []
  | _ + 1, [] => []
  | n + 1, c :: cs =>
    if c = '<' then
      match splitAtFirstGt cs with
      | some (_, rest) => jsStripTagsF n rest
      | none => c :: jsStripTagsF n cs
    else c :: jsStripTagsF n cs

def jsStripTags (cs : List Char) : List Char :=
  jsStripTagsF (cs.length + 1) cs

/-- `text.replace(/\s+/g, ' ')`: every maximal whitespace run becomes a
single space. -/
def jsCollapseWsF : ℕ → List Char → List Char
  | 0, _ => []
  | _ + 1, [] => []
  | n + 1, c :: cs =>
    if jsIsSpace c then ' ' :: jsCollapseWsF n (cs.dropWhile jsIsSpace)
    else c :: jsCollapseWsF n cs

def jsCollapseWs (cs : List Char) : List Char :=
  jsCollapseWsF (cs.length + 1) cs

/-- `String.prototype.trim`. -/
def jsTrim (cs : List Char) : List Char :=
  ((cs.dropWhile jsIsSpace).reverse.dropWhile jsIsSpace).reverse

/-! ## Number literals and `parseFloat` -/

/-- A character the number fields of the tag grammar may use. -/
def isNumChar (c : Char) : Bool :=
  c.isDigit || c = '.'

/-- Whether a run of number characters matches `^\d*\.?\d+$` exactly:
nonempty, digits with at most one dot, and ending in a digit. -/
def isNumLit (l : List Char) : Bool :=
  !l.isEmpty && l.all isNumChar && l.count '.' ≤ 1 &&
    (match l.getLast? with
     | some c => c.isDigit
     | none => false)

/-- The numeric value of a digit list read in base 10. -/
def digitsVal (l : List Char) : ℚ :=
  l.foldl (fun acc c => acc * 10 + ((c.toNat - '0'.toNat : ℕ) : ℚ)) 0

/-- `parseFloat` on the grammar fragment reachable here: optional
whitespace and sign, integer digits, optionally a dot and fraction
digits; `none` stands for `NaN` (no digit at all). -/
def jsParseFloat (l : List Char) : Option ℚ :=
  let l1 := l.dropWhile jsIsSpace
  let sl : ℚ × List Char :=
    match l1 with
    | c :: r =>
      if c = '-' then (-1, r) else if c = '+' then (1, r) else (1, c :: r)
    | [] => (1, [])
  let ds := sl.2.takeWhile Char.isDigit
  let rest := sl.2.dropWhile Char.isDigit
  match rest with
  | '.' :: r2 =>
    let fs := r2.takeWhile Char.isDigit
    if ds.isEmpty && fs.isEmpty then none
    else some (sl.1 * (digitsVal ds + digitsVal fs / (10 : ℚ) ^ fs.length))
  | _ =>
    if ds.isEmpty then none else some (sl.1 * digitsVal ds)

/-- The number `parseFloat` yields on a capture (`0` is never used: the
captures are valid literals, see `tagContentMatch_floats`). -/
def numVal (l : List Char) : ℚ :=
  (jsParseFloat l).getD 0

/-! ## The tag grammar `^(\d*\.?\d+)([LRFB])(\d*\.?\d+)([LRFB])(\d*\.?\d+)$` -/

def isDirChar (c : Char) : Bool :=
  c = 'L' || c = 'R' || c = 'F' || c = 'B'

/-- The five captures of the tag grammar (number fields as the captured
character runs, direction fields as the captured characters). -/
structure TagCapture where
  n1 : List Char
  d1 : Char
  n2 : List Char
  d2 : Char
  n3 : List Char
deriving DecidableEq, Repr

/-- The maximal run of number characters and the rest.  Because the
number class (digits, dot) and the direction class `[LRFB]` are
disjoint, the regex's backtracking always settles on exactly this run,
and the run must itself match `^\d*\.?\d+$` in full. -/
def takeNumRun (l : List Char) : List Char × List Char :=
  (l.takeWhile isNumChar, l.dropWhile isNumChar)

/-- Match the anchored five-field pattern against a tag's content. -/
def tagContentMatch (l : List Char) : Option TagCapture :=
  let p1 := takeNumRun l
  if isNumLit p1.1 then
    match p1.2 with
    | c1 :: r1 =>
      if isDirChar c1 then
        let p2 := takeNumRun r1
        if isNumLit p2.1 then
          match p2.2 with
          | c2 :: r2 =>
            if isDirChar c2 then
              let p3 := takeNumRun r2
              if isNumLit p3.1 && p3.2.isEmpty then
                some ⟨p1.1, c1, p2.1, c2, p3.1⟩
              else none
            else none
          | [] => none
        else none
      else none
    | [] => none
  else none

/-- Match `^<(\d*\.?\d+)([LRFB])(\d*\.?\d+)([LRFB])(\d*\.?\d+)>$`
against a whole token. -/
def tagTokenMatch (tok : List Char) : Option TagCapture :=
  match tok with
  | '<' :: rest =>
    match splitAtFirstGt rest with
    | some (inside, []) => tagContentMatch inside
    | _ => none
  | _ => none

def dirOfChar (c : Char) : MotionDirection :=
  if c = 'L' then MotionDirection.L
  else if c = 'R' then MotionDirection.R
  else if c = 'F' then MotionDirection.F
  else MotionDirection.B

/-- The `MotionConfig` the parser builds from a matched tag
(`motion-parser.ts` lines 51–59): `speed` is the unused legacy field,
`zoomType` the fixed default. -/
def motionConfigOfCapture (cap : TagCapture) : MotionConfig :=
  { entryDirection := dirOfChar cap.d1
    speed := 50
    displayDuration := numVal cap.n2
    zoomType := ZoomType.ZOOM_IN
    exitDirection := dirOfChar cap.d2
    entrySpeed := numVal cap.n1
    exitSpeed := numVal cap.n3 }

/-! ## The parser `parseMotionLanguage` (grouping version) -/

/-- `word-<index>-<Date.now()>`. -/
def wordId (now idx : ℕ) : String :=
  "word-" ++ toString idx ++ "-" ++ toString now

/-- A parsed segment before timing and layout (both branches of the
push in `parseMotionLanguage`). -/
def mkWord (now idx : ℕ) (text : List Char) (mc : Option MotionConfig) : WordData :=
  match mc with
  | some c =>
    ⟨wordId now idx, String.mk text, AnimationType.MOTION_LANGUAGE, some c,
      0, 3 / 5, "easeOut", ((0 : ℝ), (0 : ℝ)), idx⟩
  | none =>
    ⟨wordId now idx, String.mk text, AnimationType.FADE_IN, none,
      0, 3 / 5, "easeOut", ((0 : ℝ), (0 : ℝ)), idx⟩

/-- The inner look-ahead loop of `parseMotionLanguage`: absorb
consecutive word tokens into the open group; a tag token closes the
group (and is consumed), any other token stops the group (and is left
in place). -/
def collectGroup : List (List Char) → List (List Char) × Option MotionConfig × List (List Char)
  | [] => ([], none, [])
  | t :: rest =>
    match tagTokenMatch t with
    | some cap => ([], some (motionConfigOfCapture cap), rest)
    | none =>
      if isWordTok t then
        let p := collectGroup rest
        (t :: p.1, p.2.1, p.2.2)
      else ([], none, t :: rest)

/-- The outer token walk of `parseMotionLanguage`: a tag token with no
open group is skipped; a word token opens a group (absorbing via
`collectGroup`) and emits one segment; any other token is skipped.
Fuel-indexed: each step consumes at least one token, and
`collectGroup` never lengthens the rest. -/
def parseTokensF (now : ℕ) : ℕ → List (List Char) → ℕ → List WordData
  | 0, _, _ => []
  | _ + 1, [], _ => []
  | n + 1, t :: rest, idx =>
    if (tagTokenMatch t).isSome then parseTokensF now n rest idx
    else if isWordTok t then
      let p := collectGroup rest
      mkWord now idx (List.intercalate [' '] (t :: p.1)) p.2.1 ::
        parseTokensF now n p.2.2 (idx + 1)
    else parseTokensF now n rest idx

structure ParseResult where
  words : List WordData
  cleanText : String

/-- `parseMotionLanguage` (grouping version, `motion-parser.ts` 10–113):
tokenize, walk the tokens grouping consecutive words and attaching a
following tag to the preceding group, and strip tags from the raw text
for `cleanText`. -/
def parseMotionLanguage (now : ℕ) (text : String) : ParseResult :=
  let toks := tokenize text.toList
  { words := parseTokensF now (toks.length + 1) toks 0
    cleanText := String.mk (jsTrim (jsCollapseWs (jsStripTags text.toList))) }

/-! ## `validateMotionSyntax` -/

structure ValidationResult where
  isValid : Bool
  error : Option String
deriving DecidableEq, Repr

def formatErrMsg : String :=
  "Invalid motion syntax. Use format <[EntrySpeed][EntryDir][Duration][ExitDir][ExitSpeed]> like <0.3F1.2R0.9>"

def entrySpeedErrMsg (s : List Char) : String :=
  "Invalid entry speed '" ++ String.mk s ++ "'. Use a positive number (0.1 to 10 seconds)"

def entryDirErrMsg (c : Char) : String :=
  "Invalid entry direction '" ++ String.mk [c] ++ "'. Use L, R, F, or B"

def durationErrMsg (s : List Char) : String :=
  "Invalid display duration '" ++ String.mk s ++ "'. Use a positive number (0.1 to 30 seconds)"

def exitDirErrMsg (c : Char) : String :=
  "Invalid exit direction '" ++ String.mk [c] ++ "'. Use L, R, F, or B"

def exitSpeedErrMsg (s : List Char) : String :=
  "Invalid exit speed '" ++ String.mk s ++ "'. Use a positive number (0.1 to 10 seconds)"

/-- `motionTag.replace(/[<>]/g, '')`. -/
def removeAngles (s : String) : List Char :=
  s.toList.filter (fun c => !(c = '<' || c = '>'))

/-- `validateMotionSyntax` (`motion-parser.ts` 118–181), with the same
sequence of checks: pattern, entry speed (`isNaN` via the `none` case,
then range), entry direction, display duration, exit direction, exit
speed. -/
def validateMotionSyntax (motionTag : String) : ValidationResult :=
  let content := removeAngles motionTag
  match tagContentMatch content with
  | none => ⟨false, some formatErrMsg⟩
  | some cap =>
    match jsParseFloat cap.n1 with
    | none => ⟨false, some (entrySpeedErrMsg cap.n1)⟩
    | some v1 =>
      if v1 ≤ 0 ∨ 10 < v1 then ⟨false, some (entrySpeedErrMsg cap.n1)⟩
      else if ¬ isDirChar cap.d1 then ⟨false, some (entryDirErrMsg cap.d1)⟩
      else
        match jsParseFloat cap.n2 with
        | none => ⟨false, some (durationErrMsg cap.n2)⟩
        | some v2 =>
          if v2 ≤ 0 ∨ 30 < v2 then ⟨false, some (durationErrMsg cap.n2)⟩
          else if ¬ isDirChar cap.d2 then ⟨false, some (exitDirErrMsg cap.d2)⟩
          else
            match jsParseFloat cap.n3 with
            | none => ⟨false, some (exitSpeedErrMsg cap.n3)⟩
            | some v3 =>
              if v3 ≤ 0 ∨ 10 < v3 then ⟨false, some (exitSpeedErrMsg cap.n3)⟩
              else ⟨true, none⟩

/-! ## The timing pass of `calculateMotionTiming` -/

/-- `x || 0.8` on a JavaScript number (`0` is the only falsy rational). -/
def jsOrDefault (x d : ℚ) : ℚ :=
  if x = 0 then d else x

/-- The duration one segment occupies (`motion-parser.ts` 194–222):
`(entrySpeed || 0.8) + displayDuration + (exitSpeed || 0.8)` for a
motion word, the fixed `2.0` for a plain word. -/
def wordDuration (w : WordData) : ℚ :=
  match w.motionConfig with
  | some mc =>
    jsOrDefault mc.entrySpeed (4 / 5) + mc.displayDuration + jsOrDefault mc.exitSpeed (4 / 5)
  | none => 2

/-- The first pass of `calculateMotionTiming`: walk the words with a
running cursor `t`, assigning `startTime := t`, the duration above, and
the temporary position `(0, 0)`; advance `t` by duration plus gap. -/
def motionTimingPass : List WordData → ℚ → ℚ → List WordData
  | [], _, _ => []
  | w :: rest, gap, t =>
    { w with startTime := t, duration := wordDuration w, position := ((0 : ℝ), (0 : ℝ)) } ::
      motionTimingPass rest gap (t + wordDuration w + gap)

/-! ## `calculateTotalDuration` and the store's total -/

/-- `calculateTotalDuration` (`timing-calculator.ts` 76–82): `0` for an
empty list, otherwise `Math.max(...)` over `startTime + duration`. -/
def calculateTotalDuration (words : List WordData) : ℚ :=
  match words.map (fun w => w.startTime + w.duration) with
  | [] => 0
  | x :: xs => xs.foldl max x

/-- The store's formula (`typographer-store.ts` `updateText`):
`Math.max(...words.map(w => w.startTime + w.duration), 0)`. -/
def storeTotalDuration (words : List WordData) : ℚ :=
  (words.map (fun w => w.startTime + w.duration)).foldl max 0

/-! ## Layout engine (`positioning.ts`)

Positions are real-valued because the spiral candidate generator uses
`cos`/`sin`; comparison-driven control flow (`isPositionValid`) is
modelled propositionally, with classical choice supplying the branch
decisions, exactly mirroring the source's boolean tests over floats. -/

noncomputable section

structure LayoutConfig where
  canvasWidth : ℝ
  canvasHeight : ℝ
  margin : ℝ
  minWordSpacing : ℝ
  lineHeight : ℝ
  centerBias : ℝ

structure WordDimensions where
  width : ℝ
  height : ℝ
  fontSize : ℝ

structure CollisionBounds where
  left : ℝ
  top : ℝ
  right : ℝ
  bottom : ℝ

/-- `estimateWordDimensions` (`positioning.ts` 237–250): fixed 32px
font, average character width `fontSize * 0.6`, height with line
spacing `fontSize * 1.2`.  The config argument is unused in the source
as well. -/
def estimateWordDimensions (text : String) (_config : LayoutConfig) : WordDimensions :=
  let fontSize : ℝ := 32
  let charWidth := fontSize * 0.6
  { width := (text.length : ℝ) * charWidth
    height := fontSize * 1.2
    fontSize := fontSize }

/-- `createLayoutConfig` (`positioning.ts` 255–267). -/
def createLayoutConfig (canvasWidth canvasHeight : ℝ) : LayoutConfig :=
  { canvasWidth := canvasWidth
    canvasHeight := canvasHeight
    margin := min canvasWidth canvasHeight * 0.05
    minWordSpacing := 20
    lineHeight := 40
    centerBias := 0.7 }

/-- `createCollisionBounds` (`positioning.ts` 195–206). -/
def createCollisionBounds (position : ℝ × ℝ) (dimensions : WordDimensions)
    (spacing : ℝ) : CollisionBounds :=
  { left := position.1 - spacing
    top := position.2 - spacing
    right := position.1 + dimensions.width + spacing
    bottom := position.2 + dimensions.height + spacing }

/-- `boundsOverlap` (`positioning.ts` 211–216). -/
def boundsOverlap (a b : CollisionBounds) : Prop :=
  ¬ (a.right < b.left ∨ a.left > b.right ∨ a.bottom < b.top ∨ a.top > b.bottom)

/-- The canvas-bounds test of `isPositionValid` (`positioning.ts`
173–177). -/
def inCanvasMargins (position : ℝ × ℝ) (dimensions : WordDimensions)
    (config : LayoutConfig) : Prop :=
  ¬ (position.1 < config.margin ∨ position.2 < config.margin ∨
     position.1 + dimensions.width > config.canvasWidth - config.margin ∨
     position.2 + dimensions.height > config.canvasHeight - config.margin)

/-- `isPositionValid` (`positioning.ts` 166–190): within the canvas
margins and free of collisions with every occupied area. -/
def isPositionValid (position : ℝ × ℝ) (dimensions : WordDimensions)
    (config : LayoutConfig) (occupiedAreas : List CollisionBounds) : Prop :=
  inCanvasMargins position dimensions config ∧
    ∀ b ∈ occupiedAreas,
      ¬ boundsOverlap (createCollisionBounds position dimensions config.minWordSpacing) b

/-- `generateSpiralPositions` (`positioning.ts` 145–161). -/
def generateSpiralPositions (centerX centerY radius : ℝ) (numPoints : ℕ) : List (ℝ × ℝ) :=
  (List.range numPoints).map fun i : ℕ =>
    let angle := ((i : ℝ) / (numPoints : ℝ)) * (2 * Real.pi)
    (centerX + Real.cos angle * radius, centerY + Real.sin angle * radius)

open Classical in
/-- The inner candidate loop of `calculateFlowPosition`
(`positioning.ts` 122–132): center each spiral point, return the first
valid candidate. -/
def findValidCandidate (pts : List (ℝ × ℝ)) (dimensions : WordDimensions)
    (config : LayoutConfig) (occupiedAreas : List CollisionBounds) : Option (ℝ × ℝ) :=
  match pts with
  | [] => none
  | p :: ps =>
    let candidate := (p.1 - dimensions.width / 2, p.2 - dimensions.height / 2)
    if isPositionValid candidate dimensions config occupiedAreas then some candidate
    else findValidCandidate ps dimensions config occupiedAreas

/-- The radii tried by the outer loop of `calculateFlowPosition`:
`for (radius = 0; radius < min(w, h) / 2; radius += 20)`, that is,
`20 * k` for every `k` with `20 * k < min(w, h) / 2`. -/
def spiralRadii (config : LayoutConfig) : List ℝ :=
  (List.range ⌈min config.canvasWidth config.canvasHeight / 2 / 20⌉₊).map
    fun k : ℕ => 20 * (k : ℝ)

/-- The outer radius loop of `calculateFlowPosition`: 8 spiral points
per radius, first valid candidate wins. -/
def flowSearchAux (dimensions : WordDimensions) (config : LayoutConfig)
    (occupiedAreas : List CollisionBounds) : List ℝ → Option (ℝ × ℝ)
  | [] => none
  | r :: rs =>
    match findValidCandidate
        (generateSpiralPositions (config.canvasWidth / 2) (config.canvasHeight / 2) r 8)
        dimensions config occupiedAreas with
    | some p => some p
    | none => flowSearchAux dimensions config occupiedAreas rs

/-- The whole expanding-spiral search of `calculateFlowPosition`
(`positioning.ts` 119–133); `none` means every candidate was rejected
and the center fallback is used. -/
def flowSearch (dimensions : WordDimensions) (config : LayoutConfig)
    (occupiedAreas : List CollisionBounds) : Option (ℝ × ℝ) :=
  flowSearchAux dimensions config occupiedAreas (spiralRadii config)

/-- `calculateFlowPosition` (`positioning.ts` 106–140): spiral search,
falling back to the (possibly overlapping) center placement. -/
def calculateFlowPosition (_word : WordData) (dimensions : WordDimensions)
    (config : LayoutConfig) (occupiedAreas : List CollisionBounds) : ℝ × ℝ :=
  (flowSearch dimensions config occupiedAreas).getD
    (config.canvasWidth / 2 - dimensions.width / 2,
     config.canvasHeight / 2 - dimensions.height / 2)

/-- `calculateMotionLanguagePosition` (`positioning.ts` 83–101), with
the two `Math.random()` draws passed in as `r1`, `r2`. -/
def calculateMotionLanguagePosition (_word : WordData) (dimensions : WordDimensions)
    (config : LayoutConfig) (r1 r2 : ℝ) : ℝ × ℝ :=
  let offsetRange := min config.canvasWidth config.canvasHeight * 0.1
  (config.canvasWidth / 2 + (r1 - 0.5) * offsetRange - dimensions.width / 2,
   config.canvasHeight / 2 + (r2 - 0.5) * offsetRange - dimensions.height / 2)

/-- `constrainToCanvas` (`positioning.ts` 221–232). -/
def constrainToCanvas (position : ℝ × ℝ) (dimensions : WordDimensions)
    (config : LayoutConfig) : ℝ × ℝ :=
  (max config.margin (min position.1 (config.canvasWidth - dimensions.width - config.margin)),
   max config.margin (min position.2 (config.canvasHeight - dimensions.height - config.margin)))

/-- `layoutWords` (`positioning.ts` 48–78): walk the words, choosing
the motion-language or the flow strategy, constrain to the canvas,
record the collision bounds for the following words.  Returns the
positioned words, the final occupied list and the final random-stream
cursor. -/
def layoutWords (rand : ℕ → ℝ) (config : LayoutConfig) :
    List WordData → List CollisionBounds → ℕ →
      List WordData × List CollisionBounds × ℕ
  | [], occ, n => ([], occ, n)
  | w :: ws, occ, n =>
    let dims := estimateWordDimensions w.text config
    let chosen : (ℝ × ℝ) × ℕ :=
      if w.animation = AnimationType.MOTION_LANGUAGE ∧ w.motionConfig ≠ none then
        (calculateMotionLanguagePosition w dims config (rand n) (rand (n + 1)), n + 2)
      else
        (calculateFlowPosition w dims config occ, n)
    let pos := constrainToCanvas chosen.1 dims config
    let b := createCollisionBounds pos dims config.minWordSpacing
    let rest := layoutWords rand config ws (occ ++ [b]) chosen.2
    ({ w with position := pos } :: rest.1, rest.2)

/-- `calculateWordPositions` (`positioning.ts` 24–43). -/
def calculateWordPositions (rand : ℕ → ℝ) (words : List WordData)
    (config : LayoutConfig) : List WordData :=
  if words.isEmpty then [] else (layoutWords rand config words [] 0).1

/-- The occupied areas `layoutWords` has accumulated when it reaches
word `i` (derived notion used to state the collision invariant). -/
def occupiedBefore (rand : ℕ → ℝ) (config : LayoutConfig)
    (words : List WordData) (i : ℕ) : List CollisionBounds :=
  (layoutWords rand config (words.take i) [] 0).2.1

/-- `calculateMotionTiming` (`motion-parser.ts` 186–228): the timing
pass followed by the positioning pass over a default 800×600 canvas. -/
def calculateMotionTiming (rand : ℕ → ℝ) (words : List WordData)
    (gapBetweenWords : ℚ) : List WordData :=
  if words.isEmpty then []
  else calculateWordPositions rand (motionTimingPass words gapBetweenWords 0)
    (createLayoutConfig 800 600)

/-- `updatePositionsForResize` (`positioning.ts` 272–288). -/
def updatePositionsForResize (words : List WordData)
    (oldConfig newConfig : LayoutConfig) : List WordData :=
  let scaleX := newConfig.canvasWidth / oldConfig.canvasWidth
  let scaleY := newConfig.canvasHeight / oldConfig.canvasHeight
  words.map fun w =>
    { w with position := (w.position.1 * scaleX, w.position.2 * scaleY) }

end

/-! ## Auxiliary definitions for the statements -/

/-- Inputs whose angle brackets occur only as complete `<...>` tag
substrings: scanning left to right, a stray `'>'` never appears, and
every `'<'` is closed by a later `'>'`.  (The counterexample to the
unconditional claim is the input `"a < b"`.) -/
def wellTaggedF : ℕ → List Char → Bool
  | 0, _ => false
  | _ + 1, [] => true
  | n + 1, c :: cs =>
    if c = '>' then false
    else if c = '<' then
      match splitAtFirstGt cs with
      | some p => wellTaggedF n p.2
      | none => false
    else wellTaggedF n cs

def wellTagged (cs : List Char) : Bool :=
  wellTaggedF (cs.length + 1) cs

/-- The segment-duration formula the amended claim C1 states, written
out without reference to the implementation's helpers. -/
def claimedDuration (w : WordData) : ℚ :=
  match w.motionConfig with
  | some mc =>
    (if mc.entrySpeed = 0 then 4 / 5 else mc.entrySpeed) + mc.displayDuration +
      (if mc.exitSpeed = 0 then 4 / 5 else mc.exitSpeed)
  | none => 2

/-- A concrete parsed motion configuration (that of `<0.3F1.2R0.9>`),
used by concrete instances. -/
def mcA : MotionConfig :=
  ⟨MotionDirection.F, 50, 6 / 5, ZoomType.ZOOM_IN, MotionDirection.R, 3 / 10, 9 / 10⟩

/-- A concrete tagged word for concrete instances. -/
def wA : WordData :=
  ⟨"word-0-0", "Hello", AnimationType.MOTION_LANGUAGE, some mcA, 0, 3 / 5, "easeOut",
    ((0 : ℝ), (0 : ℝ)), 0⟩

/-- A concrete untagged word for concrete instances. -/
def wB : WordData :=
  ⟨"word-1-0", "World", AnimationType.FADE_IN, none, 0, 3 / 5, "easeOut",
    ((0 : ℝ), (0 : ℝ)), 1⟩

noncomputable section

/-- A fixed random stream for concrete instances. -/
def randZero : ℕ → ℝ := fun _ => 0

/-- A concrete layout config for the collision-invariant instance:
800×600 canvas, margin 10, word spacing -1. -/
def cfgW : LayoutConfig := ⟨800, 600, 10, -1, 40, 0⟩

/-- Two concrete untagged empty-text words for the collision-invariant
instance. -/
def wU : WordData :=
  ⟨"u", "", AnimationType.FADE_IN, none, 0, 2, "easeOut", ((0 : ℝ), (0 : ℝ)), 0⟩

def wV : WordData :=
  ⟨"v", "", AnimationType.FADE_IN, none, 0, 2, "easeOut", ((0 : ℝ), (0 : ℝ)), 1⟩

/-- Concrete old/new layout configs for the resize instance. -/
def cfgOld : LayoutConfig := ⟨800, 600, 10, 20, 40, 0⟩

def cfgNew : LayoutConfig := ⟨400, 300, 10, 20, 40, 0⟩

/-- A concrete word with a nonzero position for the resize instance. -/
def wP : WordData :=
  ⟨"p", "Hi", AnimationType.FADE_IN, none, 0, 2, "easeOut", ((100 : ℝ), (50 : ℝ)), 0⟩

/-- The (constrained) position `layoutWords` gives a word placed by the
flow strategy against the occupied areas `occ` (shorthand used by the
collision-invariant statements). -/
def flowPos (cfg : LayoutConfig) (w : WordData) (occ : List CollisionBounds) : ℝ × ℝ :=
  constrainToCanvas
    (calculateFlowPosition w (estimateWordDimensions w.text cfg) cfg occ)
    (estimateWordDimensions w.text cfg) cfg

/-- The collision bounds `layoutWords` records for such a word. -/
def flowBounds (cfg : LayoutConfig) (w : WordData) (occ : List CollisionBounds) : CollisionBounds :=
  createCollisionBounds (flowPos cfg w occ) (estimateWordDimensions w.text cfg) cfg.minWordSpacing

end

/-! # Lemmas and claim theorems -/

/-! ## The clean-text pipeline (claim C4) -/

theorem toList_mk (l : List Char) : (String.mk l).toList = l := rfl

/-- On well-tagged input the tag-stripping replace leaves no angle
bracket (same fuel on both scans: each consumes one step per
character or tag). -/
theorem wellTaggedF_stripF (n : ℕ) :
    ∀ l : List Char, wellTaggedF n l = true →
      '<' ∉ jsStripTagsF n l ∧ '>' ∉ jsStripTagsF n l := by
  induction n with
  | zero => intro l h; simp [wellTaggedF] at h
  | succ n ih =>
    intro l h
    match l with
    | [] => simp [jsStripTagsF]
    | c :: cs =>
      rw [wellTaggedF] at h
      by_cases hgt : c = '>'
      · simp [hgt] at h
      · rw [if_neg hgt] at h
        by_cases hlt : c = '<'
        · rw [if_pos hlt] at h
          cases hs : splitAtFirstGt cs with
          | none => rw [hs] at h; exact absurd h (by simp)
          | some p =>
            rw [hs] at h
            have := ih p.2 h
            subst hlt
            simpa [jsStripTagsF, hs] using this
        · rw [if_neg hlt] at h
          have := ih cs h
          simp only [jsStripTagsF, if_neg hlt, List.mem_cons]
          constructor
          · rintro (rfl | hm)
            · exact hlt rfl
            · exact this.1 hm
          · rintro (rfl | hm)
            · exact hgt rfl
            · exact this.2 hm

theorem mem_of_mem_dropWhile {p : Char → Bool} :
    ∀ {l : List Char} {c : Char}, c ∈ l.dropWhile p → c ∈ l := by
  intro l
  induction l with
  | nil => intro c h; simp at h
  | cons a as ih =>
    intro c h
    rw [List.dropWhile_cons] at h
    by_cases ha : p a = true
    · rw [if_pos ha] at h; exact List.mem_cons_of_mem _ (ih h)
    · rw [if_neg ha] at h; exact h

theorem mem_collapseF (n : ℕ) :
    ∀ l c, c ∈ jsCollapseWsF n l → c ∈ l ∨ c = ' ' := by
  induction n with
  | zero => intro l c h; simp [jsCollapseWsF] at h
  | succ n ih =>
    intro l c h
    match l with
    | [] => simp [jsCollapseWsF] at h
    | a :: as =>
      rw [jsCollapseWsF] at h
      by_cases ha : jsIsSpace a = true
      · rw [if_pos ha] at h
        rcases List.mem_cons.mp h with rfl | hm
        · exact Or.inr rfl
        · rcases ih _ _ hm with hm' | rfl
          · exact Or.inl (List.mem_cons_of_mem _ (mem_of_mem_dropWhile hm'))
          · exact Or.inr rfl
      · rw [if_neg ha] at h
        rcases List.mem_cons.mp h with rfl | hm
        · exact Or.inl (List.mem_cons_self _ _)
        · rcases ih _ _ hm with hm' | rfl
          · exact Or.inl (List.mem_cons_of_mem _ hm')
          · exact Or.inr rfl

theorem mem_trim {l : List Char} {c : Char} (h : c ∈ jsTrim l) : c ∈ l := by
  unfold jsTrim at h
  rw [List.mem_reverse] at h
  have h1 := mem_of_mem_dropWhile h
  rw [List.mem_reverse] at h1
  exact mem_of_mem_dropWhile h1

/-- Claim C4, counterexample: on the input `"a < b"` (a stray `'<'`
with no later `'>'`) the clean text keeps the `'<'`, so the claim's
unconditional "contains no `'<'`" is false. -/
theorem c4_counterexample :
    (parseMotionLanguage 0 "a < b").cleanText = "a < b" ∧
      '<' ∈ (parseMotionLanguage 0 "a < b").cleanText.toList := by
  exact ⟨rfl, by decide⟩

/-- Claim C4, amended: `cleanText` always equals the raw text with the
bracket-delimited substrings removed, whitespace runs collapsed and the
ends trimmed; and it contains no `'<'`/`'>'` provided every bracket of
the input occurs inside a complete `<...>` substring (`wellTagged`).
A stray bracket (as in the counterexample) survives into `cleanText`. -/
theorem c4_amended (now : ℕ) (s : String) :
    (parseMotionLanguage now s).cleanText.toList =
      jsTrim (jsCollapseWs (jsStripTags s.toList)) ∧
    (wellTagged s.toList = true →
      '<' ∉ (parseMotionLanguage now s).cleanText.toList ∧
      '>' ∉ (parseMotionLanguage now s).cleanText.toList) := by
  refine ⟨rfl, fun h => ?_⟩
  have hs := wellTaggedF_stripF (s.toList.length + 1) s.toList h
  constructor
  · intro hmem
    rcases mem_collapseF _ _ _ (mem_trim hmem) with hm | hm
    · exact hs.1 hm
    · exact absurd hm (by decide)
  · intro hmem
    rcases mem_collapseF _ _ _ (mem_trim hmem) with hm | hm
    · exact hs.2 hm
    · exact absurd hm (by decide)

/-! ## Parsing scenarios (claims C2, C3, C7) -/

/-- Claim C2: parsing `"Hello Beautiful <0.3F1.2R0.9> World"` emits
exactly two segments: the grouped text `"Hello Beautiful"` carrying the
parsed tag (entry 0.3 Front, display 1.2, exit Right 0.9), then
`"World"` with no tag. -/
theorem c2_parse_groups_words :
    ((parseMotionLanguage 0 "Hello Beautiful <0.3F1.2R0.9> World").words.map
      (fun w => (w.text, w.motionConfig))) =
      [("Hello Beautiful",
        some ⟨MotionDirection.F, 50, 6 / 5, ZoomType.ZOOM_IN, MotionDirection.R, 3 / 10, 9 / 10⟩),
       ("World", none)] := by
  with_unfolding_all decide

/-- Claim C3, counterexample: on `"Hi <99Z1R0.5> there"` the malformed
tag *closes* the group after `"Hi"` (it is not a word token, so the
look-ahead stops), and `"there"` starts a new segment: the parser emits
two untagged segments, not the single segment `"Hi there"` the claim
states. -/
theorem c3_counterexample :
    ((parseMotionLanguage 0 "Hi <99Z1R0.5> there").words.map
      (fun w => (w.text, w.motionConfig))) = [("Hi", none), ("there", none)] ∧
    (parseMotionLanguage 0 "Hi <99Z1R0.5> there").words.length ≠ 1 := by
  constructor
  · with_unfolding_all decide
  · decide

/-! ## The layout pass only rewrites positions -/

theorem layoutWords_map_proj {α : Type} (rand : ℕ → ℝ) (cfg : LayoutConfig)
    (f : WordData → α) (hf : ∀ w p, f { w with position := p } = f w) :
    ∀ (ws : List WordData) (occ : List CollisionBounds) (n : ℕ),
      ((layoutWords rand cfg ws occ n).1).map f = ws.map f := by
  intro ws
  induction ws with
  | nil => intro occ n; simp [layoutWords]
  | cons w rest ih =>
    intro occ n
    rw [layoutWords]
    simp only [List.map_cons]
    rw [hf, ih]

theorem calculateWordPositions_map {α : Type} (rand : ℕ → ℝ) (cfg : LayoutConfig)
    (f : WordData → α) (hf : ∀ w p, f { w with position := p } = f w)
    (ws : List WordData) :
    (calculateWordPositions rand ws cfg).map f = ws.map f := by
  unfold calculateWordPositions
  by_cases h : ws.isEmpty
  · rw [if_pos h, List.isEmpty_iff.mp h]
  · rw [if_neg h]; exact layoutWords_map_proj rand cfg f hf ws [] 0

theorem calculateMotionTiming_map {α : Type} (rand : ℕ → ℝ) (ws : List WordData)
    (gap : ℚ) (f : WordData → α) (hf : ∀ w p, f { w with position := p } = f w) :
    (calculateMotionTiming rand ws gap).map f = (motionTimingPass ws gap 0).map f := by
  unfold calculateMotionTiming
  by_cases h : ws.isEmpty
  · rw [if_pos h, List.isEmpty_iff.mp h]; rfl
  · rw [if_neg h]; exact calculateWordPositions_map rand _ f hf _

/-! ## The timing pass -/

theorem motionTimingPass_length (gap : ℚ) :
    ∀ (ws : List WordData) (t : ℚ), (motionTimingPass ws gap t).length = ws.length := by
  intro ws
  induction ws with
  | nil => intro t; rfl
  | cons w rest ih => intro t; simp [motionTimingPass, ih]

theorem motionTimingPass_map_duration (gap : ℚ) :
    ∀ (ws : List WordData) (t : ℚ),
      (motionTimingPass ws gap t).map (fun w => w.duration) = ws.map wordDuration := by
  intro ws
  induction ws with
  | nil => intro t; rfl
  | cons w rest ih => intro t; simp [motionTimingPass, ih]

theorem motionTimingPass_head_startTime (gap : ℚ) (ws : List WordData) (t : ℚ)
    (h : 0 < ws.length) :
    ((motionTimingPass ws gap t).map (fun w => w.startTime)).getD 0 0 = t := by
  match ws with
  | [] => simp at h
  | w :: rest => rfl

theorem motionTimingPass_startTime_rec (gap : ℚ) :
    ∀ (ws : List WordData) (t : ℚ) (i : ℕ), i + 1 < ws.length →
      ((motionTimingPass ws gap t).map (fun w => w.startTime)).getD (i + 1) 0 =
        ((motionTimingPass ws gap t).map (fun w => w.startTime)).getD i 0 +
          ((motionTimingPass ws gap t).map (fun w => w.duration)).getD i 0 + gap := by
  intro ws
  induction ws with
  | nil => intro t i h; simp at h
  | cons w rest ih =>
    intro t i h
    match i with
    | 0 =>
      have hrest : 0 < rest.length := by simpa using h
      show ((motionTimingPass rest gap _).map (fun w => w.startTime)).getD 0 0 = _
      rw [motionTimingPass_head_startTime gap rest _ hrest]
      rfl
    | i + 1 =>
      have h' : i + 1 < rest.length := by simpa using h
      exact ih _ i h'

theorem wordDuration_eq_claimed (w : WordData) : wordDuration w = claimedDuration w := by
  unfold wordDuration claimedDuration jsOrDefault
  cases w.motionConfig <;> rfl

theorem calculateMotionTiming_map_duration (rand : ℕ → ℝ) (ws : List WordData) (gap : ℚ) :
    (calculateMotionTiming rand ws gap).map (fun w => w.duration) = ws.map wordDuration := by
  rw [calculateMotionTiming_map rand ws gap (fun w => w.duration) (fun w p => rfl)]
  exact motionTimingPass_map_duration gap ws 0

/-! ## Claim C1: the schedule -/

/-- Claim C1, counterexample: `<0F1.2R0.9>` parses (the tag pattern
itself has no range check), giving `entrySpeed = 0`; the scheduler's
`entrySpeed || 0.8` then substitutes `0.8`, so the segment's duration
is `2.9`, not `0 + 1.2 + 0.9 = 2.1` as the claim's formula states. -/
theorem c1_counterexample :
    ((parseMotionLanguage 0 "Hi <0F1.2R0.9>").words.map (fun w => w.motionConfig)) =
      [some ⟨MotionDirection.F, 50, 6 / 5, ZoomType.ZOOM_IN, MotionDirection.R, 0, 9 / 10⟩] ∧
    (calculateMotionTiming randZero (parseMotionLanguage 0 "Hi <0F1.2R0.9>").words 0).map
      (fun w => w.duration) ≠ [0 + 6 / 5 + 9 / 10] := by
  constructor
  · with_unfolding_all decide
  · rw [calculateMotionTiming_map_duration]
    with_unfolding_all decide

/-- Claim C1, amended: `calculateMotionTiming` preserves the segment
count, starts the first segment at time 0, advances each next start by
the previous duration plus the gap (any rational gap, no clamping), and
assigns `duration = e + displayDuration + x` to a tagged segment where
`e`/`x` are the tag's entry/exit speeds *except that a zero speed is
replaced by the 0.8 default* (`entrySpeed || 0.8`), and `duration = 2.0`
to an untagged segment. -/
theorem c1_amended (rand : ℕ → ℝ) (ws : List WordData) (gap : ℚ) :
    (calculateMotionTiming rand ws gap).length = ws.length ∧
    (0 < ws.length →
      ((calculateMotionTiming rand ws gap).map (fun w => w.startTime)).getD 0 0 = 0) ∧
    (∀ i, i + 1 < ws.length →
      ((calculateMotionTiming rand ws gap).map (fun w => w.startTime)).getD (i + 1) 0 =
        ((calculateMotionTiming rand ws gap).map (fun w => w.startTime)).getD i 0 +
          ((calculateMotionTiming rand ws gap).map (fun w => w.duration)).getD i 0 + gap) ∧
    (calculateMotionTiming rand ws gap).map (fun w => w.duration) = ws.map claimedDuration := by
  have hst : (calculateMotionTiming rand ws gap).map (fun w => w.startTime) =
      (motionTimingPass ws gap 0).map (fun w => w.startTime) :=
    calculateMotionTiming_map rand ws gap _ (fun w p => rfl)
  have hdur : (calculateMotionTiming rand ws gap).map (fun w => w.duration) =
      (motionTimingPass ws gap 0).map (fun w => w.duration) :=
    calculateMotionTiming_map rand ws gap _ (fun w p => rfl)
  refine ⟨?_, ?_, ?_, ?_⟩
  · have := congrArg List.length hst
    simpa [motionTimingPass_length] using this
  · intro h
    rw [hst, motionTimingPass_head_startTime gap ws 0 h]
  · intro i h
    rw [hst, hdur]
    exact motionTimingPass_startTime_rec gap ws 0 i h
  · rw [calculateMotionTiming_map_duration]
    exact List.map_congr_left (fun w _ => wordDuration_eq_claimed w)

/-! ## Claim C7: a tag with no preceding word group -/

/-- Claim C7: the input `"<0.3F1.2R0.9>"` parses to no segments and an
empty clean text; and in general, when the token walk reaches a tag
token with no open group, the token is skipped and the emitted
segments are exactly those of the remaining tokens. -/
theorem c7_tag_without_group :
    ((parseMotionLanguage 0 "<0.3F1.2R0.9>").words = [] ∧
      (parseMotionLanguage 0 "<0.3F1.2R0.9>").cleanText = "") ∧
    ∀ (now fuel idx : ℕ) (toks : List (List Char)) (t : List Char),
      (tagTokenMatch t).isSome = true →
      parseTokensF now (fuel + 1) (t :: toks) idx = parseTokensF now fuel toks idx := by
  refine ⟨⟨?_, rfl⟩, ?_⟩
  · with_unfolding_all rfl
  · intro now fuel idx toks t h
    simp [parseTokensF, h]

/-! ## Claim C3: a malformed tag and the word group -/

/-- Claim C3, amended: a bracket-delimited token that fails tag
validation *closes* the current word group without attaching a tag and
is then skipped, so the following words start a new segment: parsing
`"Hi <99Z1R0.5> there"` emits the two untagged segments `"Hi"` and
`"there"`, each of which receives the default duration 2.0 from the
scheduler (at any gap). -/
theorem c3_amended (rand : ℕ → ℝ) (gap : ℚ) :
    ((parseMotionLanguage 0 "Hi <99Z1R0.5> there").words.map
      (fun w => (w.text, w.motionConfig))) = [("Hi", none), ("there", none)] ∧
    (calculateMotionTiming rand (parseMotionLanguage 0 "Hi <99Z1R0.5> there").words gap).map
      (fun w => w.duration) = [2, 2] := by
  constructor
  · with_unfolding_all decide
  · rw [calculateMotionTiming_map_duration]
    with_unfolding_all decide

/-! ## Number-literal facts (claims C5 and C10) -/

theorem jsIsSpace_not_numChar (c : Char) (h : jsIsSpace c = true) : isNumChar c = false := by
  simp only [jsIsSpace, Bool.or_eq_true, decide_eq_true_eq] at h
  rcases h with ((((rfl | rfl) | rfl) | rfl) | rfl) | rfl <;> decide

theorem isNumChar_not_space (c : Char) (h : isNumChar c = true) : jsIsSpace c = false := by
  cases hs : jsIsSpace c
  · rfl
  · rw [jsIsSpace_not_numChar c hs] at h
    simp at h

theorem isNumChar_ne_minus (c : Char) (h : isNumChar c = true) : c ≠ '-' :=
  fun e => by subst e; exact absurd h (by decide)

theorem isNumChar_ne_plus (c : Char) (h : isNumChar c = true) : c ≠ '+' :=
  fun e => by subst e; exact absurd h (by decide)

theorem isNumChar_not_digit_eq_dot (c : Char) (h : isNumChar c = true)
    (hd : c.isDigit = false) : c = '.' := by
  simp only [isNumChar, Bool.or_eq_true, decide_eq_true_eq] at h
  rcases h with h | h
  · rw [hd] at h; simp at h
  · exact h

theorem head_dropWhile {p : Char → Bool} :
    ∀ {l : List Char} {c : Char} {r : List Char}, l.dropWhile p = c :: r → p c = false := by
  intro l
  induction l with
  | nil => intro c r h; simp at h
  | cons a as ih =>
    intro c r h
    rw [List.dropWhile_cons] at h
    by_cases ha : p a = true
    · rw [if_pos ha] at h; exact ih h
    · rw [if_neg ha] at h
      obtain ⟨rfl, -⟩ := List.cons.inj h
      exact Bool.eq_false_iff.mpr ha

theorem isSome_eq_some_getD {o : Option ℚ} (h : o.isSome = true) : o = some (o.getD 0) := by
  cases o with
  | none => simp at h
  | some v => rfl

theorem digitsVal_nonneg_aux :
    ∀ (l : List Char) (acc : ℚ), 0 ≤ acc →
      0 ≤ l.foldl (fun acc c => acc * 10 + ((c.toNat - '0'.toNat : ℕ) : ℚ)) acc := by
  intro l
  induction l with
  | nil => intro acc h; exact h
  | cons c cs ih =>
    intro acc h
    rw [List.foldl_cons]
    apply ih
    positivity

theorem digitsVal_nonneg (l : List Char) : 0 ≤ digitsVal l :=
  digitsVal_nonneg_aux l 0 le_rfl

/-- Every capture `\d*\.?\d+` has a nonnegative `parseFloat` value
(in particular the `isNaN` checks of `validateMotionSyntax` can never
fire on a regex capture). -/
theorem isNumLit_parseFloat (l : List Char) (h : isNumLit l = true) :
    (jsParseFloat l).isSome = true ∧ 0 ≤ numVal l := by
  simp only [isNumLit, Bool.and_eq_true, Bool.not_eq_true', List.all_eq_true,
    decide_eq_true_eq] at h
  obtain ⟨⟨⟨hne, hall⟩, hcount⟩, hlast⟩ := h
  match hl : l with
  | [] => simp at hne
  | c :: cs =>
    have hcnum : isNumChar c = true := hall c (List.mem_cons_self _ _)
    have hdrop : (c :: cs).dropWhile jsIsSpace = c :: cs := by
      rw [List.dropWhile_cons, if_neg]
      rw [isNumChar_not_space c hcnum]
      simp
    rcases hrest : (c :: cs).dropWhile Char.isDigit with _ | ⟨c', fs'⟩
    · -- no dot: the whole token is a nonempty digit run
      have hds : (c :: cs).takeWhile Char.isDigit = c :: cs := by
        have := List.takeWhile_append_dropWhile (p := Char.isDigit) (l := c :: cs)
        rw [hrest, List.append_nil] at this
        exact this
      unfold numVal jsParseFloat
      rw [hdrop]
      simp only
      rw [if_neg (isNumChar_ne_minus c hcnum), if_neg (isNumChar_ne_plus c hcnum)]
      rw [hrest, hds]
      refine ⟨by simp, ?_⟩
      simp
      exact digitsVal_nonneg _
    · -- the rest begins with the (single) dot
      have hsplit : (c :: cs).takeWhile Char.isDigit ++ c' :: fs' = c :: cs := by
        have := List.takeWhile_append_dropWhile (p := Char.isDigit) (l := c :: cs)
        rw [hrest] at this
        exact this
      have hc'mem : c' ∈ c :: cs := by
        rw [← hsplit]; exact List.mem_append_right _ (List.mem_cons_self _ _)
      have hc'dot : c' = '.' := by
        refine isNumChar_not_digit_eq_dot c' (hall c' hc'mem) ?_
        exact head_dropWhile hrest
      subst hc'dot
      have hfs'digit : ∀ d ∈ fs', d.isDigit = true := by
        intro d hd
        by_contra hdig
        have hdnum : isNumChar d = true := by
          apply hall
          rw [← hsplit]
          exact List.mem_append_right _ (List.mem_cons_of_mem _ hd)
        have : d = '.' := isNumChar_not_digit_eq_dot d hdnum (Bool.eq_false_iff.mpr hdig)
        subst this
        have h2 : 2 ≤ (c :: cs).count '.' := by
          rw [← hsplit, List.count_append, List.count_cons_self]
          have h1 : 1 ≤ fs'.count '.' := List.count_pos_iff.mpr hd
          omega
        omega
      have hlastd : ((c :: cs).getLast (List.cons_ne_nil c cs)).isDigit = true := hlast
      have hfs'ne : fs' ≠ [] := by
        intro hnil
        subst hnil
        have hconc : (c :: cs).getLast? = some '.' := by
          rw [← hsplit]
          exact List.getLast?_concat _
        rw [List.getLast?_eq_getLast _ (List.cons_ne_nil c cs)] at hconc
        rw [Option.some.inj hconc] at hlastd
        simp at hlastd
      unfold numVal jsParseFloat
      rw [hdrop]
      simp only
      rw [if_neg (isNumChar_ne_minus c hcnum), if_neg (isNumChar_ne_plus c hcnum)]
      rw [hrest]
      rcases fs' with _ | ⟨d, ds⟩
      · exact absurd rfl hfs'ne
      · have hd : d.isDigit = true := hfs'digit d (List.mem_cons_self _ _)
        simp only [List.takeWhile_cons, hd, if_true]
        refine ⟨by simp, ?_⟩
        simp
        have hd1 : (0 : ℚ) ≤
            digitsVal (if c.isDigit = true then c :: List.takeWhile Char.isDigit cs else []) :=
          digitsVal_nonneg _
        have hd2 : (0 : ℚ) ≤ digitsVal (d :: List.takeWhile Char.isDigit ds) := digitsVal_nonneg _
        exact add_nonneg hd1 (div_nonneg hd2 (by positivity))

/-! ## The tag grammar and the validator (claims C5 and C10) -/

theorem tagContentMatch_shape (l : List Char) (cap : TagCapture)
    (h : tagContentMatch l = some cap) :
    isNumLit cap.n1 = true ∧ isDirChar cap.d1 = true ∧ isNumLit cap.n2 = true ∧
      isDirChar cap.d2 = true ∧ isNumLit cap.n3 = true := by
  simp only [tagContentMatch] at h
  repeat' split at h
  all_goals simp_all
  obtain rfl := h
  simp_all

theorem validate_of_match (t : String) (cap : TagCapture)
    (hm : tagContentMatch (removeAngles t) = some cap) :
    validateMotionSyntax t =
      if numVal cap.n1 ≤ 0 ∨ 10 < numVal cap.n1 then ⟨false, some (entrySpeedErrMsg cap.n1)⟩
      else if numVal cap.n2 ≤ 0 ∨ 30 < numVal cap.n2 then ⟨false, some (durationErrMsg cap.n2)⟩
      else if numVal cap.n3 ≤ 0 ∨ 10 < numVal cap.n3 then ⟨false, some (exitSpeedErrMsg cap.n3)⟩
      else ⟨true, none⟩ := by
  have hs := tagContentMatch_shape _ _ hm
  unfold validateMotionSyntax
  simp only [hm]
  rw [isSome_eq_some_getD (isNumLit_parseFloat _ hs.1).1]
  rw [isSome_eq_some_getD (isNumLit_parseFloat _ hs.2.2.1).1]
  rw [isSome_eq_some_getD (isNumLit_parseFloat _ hs.2.2.2.2).1]
  simp [numVal, hs.2.1, hs.2.2.2.1]

theorem not_range_iff (v a : ℚ) : ¬ (v ≤ 0 ∨ a < v) ↔ (0 < v ∧ v ≤ a) := by
  push_neg
  rfl

/-- Claim C5: `validateMotionSyntax` accepts exactly the five-field
pattern with directions in `{L,R,F,B}` and entry/exit speed in
`(0, 10]`, display duration in `(0, 30]` (after removing every `'<'`
and `'>'` from the input); a pattern failure yields the format error,
and the first out-of-range field yields that field's error message. -/
theorem c5_validate (t : String) :
    ((validateMotionSyntax t).isValid = true ↔
      ∃ cap, tagContentMatch (removeAngles t) = some cap ∧
        isDirChar cap.d1 = true ∧ isDirChar cap.d2 = true ∧
        (0 < numVal cap.n1 ∧ numVal cap.n1 ≤ 10) ∧
        (0 < numVal cap.n2 ∧ numVal cap.n2 ≤ 30) ∧
        (0 < numVal cap.n3 ∧ numVal cap.n3 ≤ 10)) ∧
    (tagContentMatch (removeAngles t) = none →
      validateMotionSyntax t = ⟨false, some formatErrMsg⟩) ∧
    (∀ cap, tagContentMatch (removeAngles t) = some cap →
      (¬ (0 < numVal cap.n1 ∧ numVal cap.n1 ≤ 10) →
        validateMotionSyntax t = ⟨false, some (entrySpeedErrMsg cap.n1)⟩) ∧
      ((0 < numVal cap.n1 ∧ numVal cap.n1 ≤ 10) →
        ¬ (0 < numVal cap.n2 ∧ numVal cap.n2 ≤ 30) →
        validateMotionSyntax t = ⟨false, some (durationErrMsg cap.n2)⟩) ∧
      ((0 < numVal cap.n1 ∧ numVal cap.n1 ≤ 10) →
        (0 < numVal cap.n2 ∧ numVal cap.n2 ≤ 30) →
        ¬ (0 < numVal cap.n3 ∧ numVal cap.n3 ≤ 10) →
        validateMotionSyntax t = ⟨false, some (exitSpeedErrMsg cap.n3)⟩)) := by
  refine ⟨⟨?_, ?_⟩, ?_, ?_⟩
  · intro hv
    cases hm : tagContentMatch (removeAngles t) with
    | none =>
      unfold validateMotionSyntax at hv
      simp only [hm] at hv
      simp at hv
    | some cap =>
      have hc := validate_of_match t cap hm
      rw [hc] at hv
      by_cases h1 : numVal cap.n1 ≤ 0 ∨ 10 < numVal cap.n1
      · rw [if_pos h1] at hv; simp at hv
      · rw [if_neg h1] at hv
        by_cases h2 : numVal cap.n2 ≤ 0 ∨ 30 < numVal cap.n2
        · rw [if_pos h2] at hv; simp at hv
        · rw [if_neg h2] at hv
          by_cases h3 : numVal cap.n3 ≤ 0 ∨ 10 < numVal cap.n3
          · rw [if_pos h3] at hv; simp at hv
          · have hs := tagContentMatch_shape _ _ hm
            exact ⟨cap, rfl, hs.2.1, hs.2.2.2.1, (not_range_iff _ _).mp h1,
              (not_range_iff _ _).mp h2, (not_range_iff _ _).mp h3⟩
  · rintro ⟨cap, hm, hd1, hd2, h1, h2, h3⟩
    rw [validate_of_match t cap hm, if_neg ((not_range_iff _ _).mpr h1),
      if_neg ((not_range_iff _ _).mpr h2), if_neg ((not_range_iff _ _).mpr h3)]
  · intro hm
    unfold validateMotionSyntax
    simp only [hm]
  · intro cap hm
    have hc := validate_of_match t cap hm
    refine ⟨?_, ?_, ?_⟩
    · intro h1
      rw [hc, if_pos]
      rw [← not_range_iff] at h1
      exact not_not.mp (fun hn => h1 hn)
    · intro h1 h2
      rw [hc, if_neg ((not_range_iff _ _).mpr h1), if_pos]
      rw [← not_range_iff] at h2
      exact not_not.mp (fun hn => h2 hn)
    · intro h1 h2 h3
      rw [hc, if_neg ((not_range_iff _ _).mpr h1), if_neg ((not_range_iff _ _).mpr h2), if_pos]
      rw [← not_range_iff] at h3
      exact not_not.mp (fun hn => h3 hn)

/-- Claim C10: the anchored five-field pattern guarantees that both
direction captures are in `{L,R,F,B}` and that all three numeric
captures parse to a number (`parseFloat` is not `NaN`, i.e. `isSome`),
so the invalid-direction branches and the `isNaN` checks of
`validateMotionSyntax` can never fire: `isValid = false` arises only
from a pattern failure or a range violation. -/
theorem c10_regex_guarantees :
    (∀ (l : List Char) (cap : TagCapture), tagContentMatch l = some cap →
      isDirChar cap.d1 = true ∧ isDirChar cap.d2 = true ∧
      (jsParseFloat cap.n1).isSome = true ∧ (jsParseFloat cap.n2).isSome = true ∧
      (jsParseFloat cap.n3).isSome = true) ∧
    (∀ t : String, (validateMotionSyntax t).isValid = false →
      tagContentMatch (removeAngles t) = none ∨
      ∃ cap, tagContentMatch (removeAngles t) = some cap ∧
        (¬ (0 < numVal cap.n1 ∧ numVal cap.n1 ≤ 10) ∨
         ¬ (0 < numVal cap.n2 ∧ numVal cap.n2 ≤ 30) ∨
         ¬ (0 < numVal cap.n3 ∧ numVal cap.n3 ≤ 10))) := by
  constructor
  · intro l cap h
    have hs := tagContentMatch_shape l cap h
    exact ⟨hs.2.1, hs.2.2.2.1, (isNumLit_parseFloat _ hs.1).1,
      (isNumLit_parseFloat _ hs.2.2.1).1, (isNumLit_parseFloat _ hs.2.2.2.2).1⟩
  · intro t hv
    cases hm : tagContentMatch (removeAngles t) with
    | none => exact Or.inl rfl
    | some cap =>
      refine Or.inr ⟨cap, rfl, ?_⟩
      by_contra hno
      push_neg at hno
      rw [validate_of_match t cap hm,
        if_neg ((not_range_iff _ _).mpr hno.1),
        if_neg ((not_range_iff _ _).mpr hno.2.1),
        if_neg ((not_range_iff _ _).mpr hno.2.2)] at hv
      simp at hv

theorem le_foldl_max : ∀ (xs : List ℚ) (a : ℚ), a ≤ xs.foldl max a := by
  intro xs
  induction xs with
  | nil => intro a; simp
  | cons x xs ih =>
    intro a
    calc a ≤ max a x := le_max_left a x
    _ ≤ xs.foldl max (max a x) := ih (max a x)

theorem mem_le_foldl_max : ∀ (xs : List ℚ) (a y : ℚ), y ∈ xs → y ≤ xs.foldl max a := by
  intro xs
  induction xs with
  | nil => intro a y h; simp at h
  | cons x xs ih =>
    intro a y h
    rcases List.mem_cons.mp h with rfl | h
    · calc y ≤ max a y := le_max_right a y
      _ ≤ xs.foldl max (max a y) := le_foldl_max xs (max a y)
    · exact ih (max a x) y h

theorem foldl_max_mem : ∀ (xs : List ℚ) (a : ℚ), xs.foldl max a = a ∨ xs.foldl max a ∈ xs := by
  intro xs
  induction xs with
  | nil => intro a; exact Or.inl rfl
  | cons x xs ih =>
    intro a
    rcases ih (max a x) with h | h
    · rcases max_choice a x with hm | hm
      · exact Or.inl (by rw [List.foldl_cons, h, hm])
      · refine Or.inr ?_
        rw [List.foldl_cons, h, hm]
        exact List.mem_cons_self _ _
    · exact Or.inr (List.mem_cons_of_mem _ h)

theorem foldl_max_init : ∀ (xs : List ℚ) (a b : ℚ),
    xs.foldl max (max a b) = max a (xs.foldl max b) := by
  intro xs
  induction xs with
  | nil => intro a b; rfl
  | cons x xs ih =>
    intro a b
    rw [List.foldl_cons, List.foldl_cons, max_assoc, ih]

/-- Every numeric capture of the tag pattern produced by the parser is
nonnegative: `\d*\.?\d+` admits no sign. -/
theorem tagTokenMatch_content (tok : List Char) (cap : TagCapture)
    (h : tagTokenMatch tok = some cap) :
    ∃ l, tagContentMatch l = some cap := by
  unfold tagTokenMatch at h
  split at h
  · split at h
    · exact ⟨_, h⟩
    · simp at h
  · simp at h

theorem collectGroup_mc :
    ∀ (toks : List (List Char)) (c : MotionConfig),
      (collectGroup toks).2.1 = some c →
      ∃ cap, c = motionConfigOfCapture cap ∧ ∃ l, tagContentMatch l = some cap := by
  intro toks
  induction toks with
  | nil => intro c h; simp [collectGroup] at h
  | cons t rest ih =>
    intro c h
    cases htm : tagTokenMatch t with
    | some cap =>
      simp only [collectGroup, htm] at h
      exact ⟨cap, (Option.some.inj h).symm, tagTokenMatch_content t cap htm⟩
    | none =>
      simp only [collectGroup, htm] at h
      by_cases hw : isWordTok t = true
      · rw [if_pos hw] at h
        exact ih c h
      · rw [if_neg hw] at h
        simp at h

/-- Every motion config the parser emits has nonnegative entry speed,
display duration and exit speed (the captures carry no sign). -/
theorem parseTokensF_mc (now : ℕ) :
    ∀ (fuel : ℕ) (toks : List (List Char)) (idx : ℕ) (w : WordData),
      w ∈ parseTokensF now fuel toks idx →
      ∀ mc, w.motionConfig = some mc →
        0 ≤ mc.entrySpeed ∧ 0 ≤ mc.displayDuration ∧ 0 ≤ mc.exitSpeed := by
  intro fuel
  induction fuel with
  | zero => intro toks idx w hw; simp [parseTokensF] at hw
  | succ n ih =>
    intro toks idx w hw mc hmc
    match toks with
    | [] => simp [parseTokensF] at hw
    | t :: rest =>
      rw [parseTokensF] at hw
      by_cases ht : (tagTokenMatch t).isSome = true
      · rw [if_pos ht] at hw
        exact ih rest idx w hw mc hmc
      · rw [if_neg ht] at hw
        by_cases hwt : isWordTok t = true
        · rw [if_pos hwt] at hw
          rcases List.mem_cons.mp hw with rfl | hw'
          · cases hcg : (collectGroup rest).2.1 with
            | none =>
              rw [hcg] at hmc
              simp [mkWord] at hmc
            | some c =>
              rw [hcg] at hmc
              simp only [mkWord, Option.some.injEq] at hmc
              obtain ⟨cap, hc, l, hl⟩ := collectGroup_mc rest c hcg
              have hs := tagContentMatch_shape l cap hl
              subst hmc
              rw [hc]
              exact ⟨(isNumLit_parseFloat _ hs.1).2, (isNumLit_parseFloat _ hs.2.2.1).2,
                (isNumLit_parseFloat _ hs.2.2.2.2).2⟩
          · exact ih _ _ w hw' mc hmc
        · rw [if_neg hwt] at hw
          exact ih rest idx w hw mc hmc

/-- A parsed segment's scheduled duration is nonnegative: `2.0` for a
plain word, `(e || 0.8) + displayDuration + (x || 0.8)` with all three
parts nonnegative for a motion word. -/
theorem wordDuration_nonneg (w : WordData)
    (h : ∀ mc, w.motionConfig = some mc →
      0 ≤ mc.entrySpeed ∧ 0 ≤ mc.displayDuration ∧ 0 ≤ mc.exitSpeed) :
    0 ≤ wordDuration w := by
  unfold wordDuration
  cases hmc : w.motionConfig with
  | none => norm_num
  | some mc =>
    obtain ⟨h1, h2, h3⟩ := h mc hmc
    show 0 ≤ jsOrDefault mc.entrySpeed (4 / 5) + mc.displayDuration +
      jsOrDefault mc.exitSpeed (4 / 5)
    unfold jsOrDefault
    split_ifs <;> linarith

/-- The store's `Math.max(..., 0)` agrees with `calculateTotalDuration`
as soon as one segment has a nonnegative end time. -/
theorem store_eq_calc (ws : List WordData)
    (h : ∃ w ∈ ws, 0 ≤ w.startTime + w.duration) :
    storeTotalDuration ws = calculateTotalDuration ws := by
  cases ws with
  | nil => obtain ⟨w, hw, -⟩ := h; simp at hw
  | cons w ws =>
    have hcalc : calculateTotalDuration (w :: ws) =
        (ws.map (fun w => w.startTime + w.duration)).foldl max (w.startTime + w.duration) := rfl
    have hub : ∀ w' ∈ w :: ws,
        w'.startTime + w'.duration ≤ calculateTotalDuration (w :: ws) := by
      intro w' hw'
      rw [hcalc]
      rcases List.mem_cons.mp hw' with rfl | hw'
      · exact le_foldl_max _ _
      · exact mem_le_foldl_max _ _ _ (List.mem_map_of_mem _ hw')
    obtain ⟨w', hw', hpos⟩ := h
    have h0 : 0 ≤ calculateTotalDuration (w :: ws) := le_trans hpos (hub w' hw')
    have hmax : storeTotalDuration (w :: ws) = max 0 (calculateTotalDuration (w :: ws)) := by
      unfold storeTotalDuration
      rw [List.map_cons, List.foldl_cons, hcalc, ← foldl_max_init]
    rw [hmax, max_eq_right h0]

/-- Claim C6: `calculateTotalDuration` is 0 on the empty list and
otherwise the maximum of `startTime + duration` over the segments (an
upper bound that is attained); the store's variant (which folds the
maximum from 0) agrees whenever some segment has `startTime + duration
≥ 0`, and in particular on the output of the full parse-and-schedule
pipeline, where it agrees unconditionally. -/
theorem c6_total_duration (ws : List WordData) :
    (ws = [] → calculateTotalDuration ws = 0) ∧
    (∀ w ∈ ws, w.startTime + w.duration ≤ calculateTotalDuration ws) ∧
    (ws ≠ [] → ∃ w ∈ ws, calculateTotalDuration ws = w.startTime + w.duration) ∧
    ((∃ w ∈ ws, 0 ≤ w.startTime + w.duration) →
      storeTotalDuration ws = calculateTotalDuration ws) ∧
    (∀ (now : ℕ) (s : String) (gap : ℚ) (rand : ℕ → ℝ),
      ws = calculateMotionTiming rand (parseMotionLanguage now s).words gap →
      storeTotalDuration ws = calculateTotalDuration ws) := by
  refine ⟨fun h => by subst h; rfl, ?_, ?_, store_eq_calc ws, ?_⟩
  · cases ws with
    | nil => simp
    | cons w ws =>
      have hcalc : calculateTotalDuration (w :: ws) =
          (ws.map (fun w => w.startTime + w.duration)).foldl max (w.startTime + w.duration) := rfl
      intro w' hw'
      rw [hcalc]
      rcases List.mem_cons.mp hw' with rfl | hw'
      · exact le_foldl_max _ _
      · exact mem_le_foldl_max _ _ _ (List.mem_map_of_mem _ hw')
  · cases ws with
    | nil => intro h; exact absurd rfl h
    | cons w ws =>
      intro _
      have hcalc : calculateTotalDuration (w :: ws) =
          (ws.map (fun w => w.startTime + w.duration)).foldl max (w.startTime + w.duration) := rfl
      rw [hcalc]
      rcases foldl_max_mem (ws.map (fun w => w.startTime + w.duration))
          (w.startTime + w.duration) with h | h
      · exact ⟨w, List.mem_cons_self _ _, h⟩
      · obtain ⟨w', hw', hval⟩ := List.mem_map.mp h
        exact ⟨w', List.mem_cons_of_mem _ hw', hval.symm⟩
  · intro now s gap rand heq
    cases ws with
    | nil => rfl
    | cons w ws₂ =>
      apply store_eq_calc
      cases hp : (parseMotionLanguage now s).words with
      | nil =>
        rw [hp] at heq
        simp [calculateMotionTiming] at heq
      | cons pw pws₂ =>
        have hst := calculateMotionTiming_map rand (parseMotionLanguage now s).words gap
          (fun w => w.startTime) (fun w p => rfl)
        have hdur := calculateMotionTiming_map rand (parseMotionLanguage now s).words gap
          (fun w => w.duration) (fun w p => rfl)
        rw [← heq, hp, motionTimingPass] at hst hdur
        simp only [List.map_cons, List.cons.injEq] at hst hdur
        refine ⟨w, List.mem_cons_self _ _, ?_⟩
        rw [hst.1, hdur.1]
        have hpw : pw ∈ (parseMotionLanguage now s).words := by
          rw [hp]; exact List.mem_cons_self _ _
        have hre : (parseMotionLanguage now s).words =
            parseTokensF now ((tokenize s.toList).length + 1) (tokenize s.toList) 0 := rfl
        rw [hre] at hpw
        have hnn := wordDuration_nonneg pw (fun mc h => parseTokensF_mc now _ _ _ pw hpw mc h)
        linarith

/-! ## Layout-engine lemmas (claims C8 and C9) -/

theorem findValidCandidate_valid :
    ∀ (pts : List (ℝ × ℝ)) (dims : WordDimensions) (cfg : LayoutConfig)
      (occ : List CollisionBounds) (p : ℝ × ℝ),
      findValidCandidate pts dims cfg occ = some p → isPositionValid p dims cfg occ := by
  intro pts
  induction pts with
  | nil => intro dims cfg occ p h; simp [findValidCandidate] at h
  | cons q qs ih =>
    intro dims cfg occ p h
    rw [findValidCandidate] at h
    by_cases hv : isPositionValid (q.1 - dims.width / 2, q.2 - dims.height / 2) dims cfg occ
    · rw [if_pos hv] at h
      obtain rfl := Option.some.inj h
      exact hv
    · rw [if_neg hv] at h
      exact ih dims cfg occ p h

theorem flowSearchAux_valid :
    ∀ (radii : List ℝ) (dims : WordDimensions) (cfg : LayoutConfig)
      (occ : List CollisionBounds) (p : ℝ × ℝ),
      flowSearchAux dims cfg occ radii = some p → isPositionValid p dims cfg occ := by
  intro radii
  induction radii with
  | nil => intro dims cfg occ p h; simp [flowSearchAux] at h
  | cons r rs ih =>
    intro dims cfg occ p h
    rw [flowSearchAux] at h
    cases hf : findValidCandidate
        (generateSpiralPositions (cfg.canvasWidth / 2) (cfg.canvasHeight / 2) r 8)
        dims cfg occ with
    | none => rw [hf] at h; exact ih dims cfg occ p h
    | some q =>
      rw [hf] at h
      obtain rfl := Option.some.inj h
      exact findValidCandidate_valid _ dims cfg occ _ hf

theorem flowSearch_valid (dims : WordDimensions) (cfg : LayoutConfig)
    (occ : List CollisionBounds) (p : ℝ × ℝ)
    (h : flowSearch dims cfg occ = some p) : isPositionValid p dims cfg occ :=
  flowSearchAux_valid _ dims cfg occ p h

theorem inCanvasMargins_bounds {p : ℝ × ℝ} {dims : WordDimensions} {cfg : LayoutConfig}
    (h : inCanvasMargins p dims cfg) :
    cfg.margin ≤ p.1 ∧ cfg.margin ≤ p.2 ∧
      p.1 + dims.width ≤ cfg.canvasWidth - cfg.margin ∧
      p.2 + dims.height ≤ cfg.canvasHeight - cfg.margin := by
  unfold inCanvasMargins at h
  push_neg at h
  exact ⟨h.1, h.2.1, h.2.2.1, h.2.2.2⟩

theorem valid_constrain_id {p : ℝ × ℝ} {dims : WordDimensions} {cfg : LayoutConfig}
    {occ : List CollisionBounds} (h : isPositionValid p dims cfg occ) :
    constrainToCanvas p dims cfg = p := by
  obtain ⟨h1, h2, h3, h4⟩ := inCanvasMargins_bounds h.1
  unfold constrainToCanvas
  rw [min_eq_left (by linarith), min_eq_left (by linarith),
    max_eq_right h1, max_eq_right h2]

theorem layoutWords_cons_flow (rand : ℕ → ℝ) (cfg : LayoutConfig) (w : WordData)
    (ws : List WordData) (occ : List CollisionBounds) (n : ℕ)
    (hmc : w.motionConfig = none) :
    (layoutWords rand cfg (w :: ws) occ n).1 =
      { w with position := flowPos cfg w occ } ::
        (layoutWords rand cfg ws (occ ++ [flowBounds cfg w occ]) n).1 ∧
    (layoutWords rand cfg (w :: ws) occ n).2 =
      (layoutWords rand cfg ws (occ ++ [flowBounds cfg w occ]) n).2 := by
  have hcond : ¬ (w.animation = AnimationType.MOTION_LANGUAGE ∧ ¬ w.motionConfig = none) := by
    rintro ⟨-, hne⟩; exact hne hmc
  constructor <;>
    simp only [layoutWords, flowPos, flowBounds, if_neg hcond]

theorem layoutWords_append (rand : ℕ → ℝ) (cfg : LayoutConfig) :
    ∀ (ws1 ws2 : List WordData) (occ : List CollisionBounds) (n : ℕ),
      (layoutWords rand cfg (ws1 ++ ws2) occ n).1 =
        (layoutWords rand cfg ws1 occ n).1 ++
          (layoutWords rand cfg ws2 (layoutWords rand cfg ws1 occ n).2.1
            (layoutWords rand cfg ws1 occ n).2.2).1 ∧
      (layoutWords rand cfg (ws1 ++ ws2) occ n).2 =
        (layoutWords rand cfg ws2 (layoutWords rand cfg ws1 occ n).2.1
          (layoutWords rand cfg ws1 occ n).2.2).2 := by
  intro ws1
  induction ws1 with
  | nil => intro ws2 occ n; exact ⟨rfl, rfl⟩
  | cons w rest ih =>
    intro ws2 occ n
    constructor
    · show (layoutWords rand cfg (w :: (rest ++ ws2)) occ n).1 = _
      rw [layoutWords]
      simp only
      rw [(ih ws2 _ _).1]
      conv_rhs => rw [layoutWords]
      rfl
    · show (layoutWords rand cfg (w :: (rest ++ ws2)) occ n).2 = _
      rw [layoutWords]
      simp only
      rw [(ih ws2 _ _).2]
      conv_rhs => rw [layoutWords]

theorem layoutWords_snd_cons (rand : ℕ → ℝ) (cfg : LayoutConfig) (w : WordData)
    (ws : List WordData) (occ : List CollisionBounds) (n : ℕ) :
    ∃ b m, (layoutWords rand cfg (w :: ws) occ n).2 =
      (layoutWords rand cfg ws (occ ++ [b]) m).2 := by
  rw [layoutWords]
  exact ⟨_, _, rfl⟩

theorem layoutWords_occ_prefix (rand : ℕ → ℝ) (cfg : LayoutConfig) :
    ∀ (ws : List WordData) (occ : List CollisionBounds) (n : ℕ),
      ∃ t, (layoutWords rand cfg ws occ n).2.1 = occ ++ t := by
  intro ws
  induction ws with
  | nil => intro occ n; exact ⟨[], by simp [layoutWords]⟩
  | cons w rest ih =>
    intro occ n
    obtain ⟨b, m, h⟩ := layoutWords_snd_cons rand cfg w rest occ n
    rw [h]
    obtain ⟨t, ht⟩ := ih (occ ++ [b]) m
    exact ⟨[b] ++ t, by rw [ht, List.append_assoc]⟩

theorem layoutWords_length (rand : ℕ → ℝ) (cfg : LayoutConfig)
    (ws : List WordData) (occ : List CollisionBounds) (n : ℕ) :
    (layoutWords rand cfg ws occ n).1.length = ws.length := by
  have h := layoutWords_map_proj rand cfg (fun w => w.text) (fun w p => rfl) ws occ n
  have h2 := congrArg List.length h
  simpa using h2

theorem occupiedBefore_succ (rand : ℕ → ℝ) (cfg : LayoutConfig) (ws : List WordData)
    (i : ℕ) (hi : i < ws.length) (hmc : (ws.getD i w0).motionConfig = none) :
    occupiedBefore rand cfg ws (i + 1) =
      occupiedBefore rand cfg ws i ++
        [flowBounds cfg (ws.getD i w0) (occupiedBefore rand cfg ws i)] := by
  unfold occupiedBefore
  rw [List.take_succ]
  have hgd : ws[i]? = some (ws.getD i w0) := by
    rw [List.getD_eq_getElem _ _ hi]
    exact List.getElem?_eq_getElem hi
  rw [hgd]
  simp only [Option.toList_some]
  rw [(layoutWords_append rand cfg (ws.take i) [ws.getD i w0] [] 0).2]
  rw [(layoutWords_cons_flow rand cfg _ [] _ _ hmc).2]
  rfl

theorem occupiedBefore_mono (rand : ℕ → ℝ) (cfg : LayoutConfig) (ws : List WordData)
    (i j : ℕ) (hij : i ≤ j) :
    ∃ t, occupiedBefore rand cfg ws j = occupiedBefore rand cfg ws i ++ t := by
  unfold occupiedBefore
  obtain ⟨k, rfl⟩ := Nat.exists_eq_add_of_le hij
  rw [List.take_add]
  rw [(layoutWords_append rand cfg (ws.take i) ((ws.drop i).take k) [] 0).2]
  exact layoutWords_occ_prefix rand cfg _ _ _

theorem calculateWordPositions_getD_flow (rand : ℕ → ℝ) (cfg : LayoutConfig)
    (ws : List WordData) (i : ℕ) (hi : i < ws.length)
    (hmc : (ws.getD i w0).motionConfig = none) :
    (calculateWordPositions rand ws cfg).getD i w0 =
      { ws.getD i w0 with
        position := flowPos cfg (ws.getD i w0) (occupiedBefore rand cfg ws i) } := by
  have hne : ws ≠ [] := by intro h; subst h; simp at hi
  unfold calculateWordPositions
  rw [if_neg (by simpa [List.isEmpty_iff] using hne)]
  conv_lhs => rw [← List.take_append_drop i ws]
  rw [(layoutWords_append rand cfg (ws.take i) (ws.drop i) [] 0).1]
  have hlen1 : (layoutWords rand cfg (ws.take i) [] 0).1.length = i := by
    rw [layoutWords_length]
    simp [List.length_take, Nat.min_eq_left (le_of_lt hi)]
  rw [List.getD_append_right _ _ _ _ (by rw [hlen1])]
  rw [hlen1, Nat.sub_self]
  have hdrop : ws.drop i = ws.getD i w0 :: ws.drop (i + 1) := by
    rw [List.getD_eq_getElem _ _ hi]
    exact List.drop_eq_getElem_cons hi
  rw [hdrop, (layoutWords_cons_flow rand cfg _ _ _ _ hmc).1]
  rfl

/-- Claim C8: whenever the expanding-spiral search accepts a candidate
for two untagged words (`flowSearch = some`, so neither falls back to
the center placement), the words are placed exactly at the accepted
candidates, each accepted position lies within the canvas margins, and
the two collision bounds (position plus estimated dimensions expanded
by `minWordSpacing`) do not intersect. -/
theorem c8_no_overlap (rand : ℕ → ℝ) (cfg : LayoutConfig) (ws : List WordData)
    (i j : ℕ) (posi posj : ℝ × ℝ)
    (hij : i < j) (hj : j < ws.length)
    (hmi : (ws.getD i w0).motionConfig = none)
    (hmj : (ws.getD j w0).motionConfig = none)
    (hai : flowSearch (estimateWordDimensions (ws.getD i w0).text cfg) cfg
      (occupiedBefore rand cfg ws i) = some posi)
    (haj : flowSearch (estimateWordDimensions (ws.getD j w0).text cfg) cfg
      (occupiedBefore rand cfg ws j) = some posj) :
    ((calculateWordPositions rand ws cfg).getD i w0).position = posi ∧
    ((calculateWordPositions rand ws cfg).getD j w0).position = posj ∧
    inCanvasMargins posi (estimateWordDimensions (ws.getD i w0).text cfg) cfg ∧
    inCanvasMargins posj (estimateWordDimensions (ws.getD j w0).text cfg) cfg ∧
    ¬ boundsOverlap
      (createCollisionBounds posj (estimateWordDimensions (ws.getD j w0).text cfg)
        cfg.minWordSpacing)
      (createCollisionBounds posi (estimateWordDimensions (ws.getD i w0).text cfg)
        cfg.minWordSpacing) := by
  have hi : i < ws.length := lt_trans hij hj
  have hvi := flowSearch_valid _ _ _ _ hai
  have hvj := flowSearch_valid _ _ _ _ haj
  have hfpi : flowPos cfg (ws.getD i w0) (occupiedBefore rand cfg ws i) = posi := by
    unfold flowPos calculateFlowPosition
    rw [hai]
    exact valid_constrain_id hvi
  have hfpj : flowPos cfg (ws.getD j w0) (occupiedBefore rand cfg ws j) = posj := by
    unfold flowPos calculateFlowPosition
    rw [haj]
    exact valid_constrain_id hvj
  refine ⟨?_, ?_, hvi.1, hvj.1, ?_⟩
  · rw [calculateWordPositions_getD_flow rand cfg ws i hi hmi]
    exact hfpi
  · rw [calculateWordPositions_getD_flow rand cfg ws j hj hmj]
    exact hfpj
  · -- the bounds of word i are among the occupied areas word j was checked against
    have hsucc := occupiedBefore_succ rand cfg ws i hi hmi
    obtain ⟨t, ht⟩ := occupiedBefore_mono rand cfg ws (i + 1) j hij
    have hbi : createCollisionBounds posi (estimateWordDimensions (ws.getD i w0).text cfg)
        cfg.minWordSpacing ∈ occupiedBefore rand cfg ws j := by
      rw [ht, hsucc]
      apply List.mem_append_left
      apply List.mem_append_right
      rw [show flowBounds cfg (ws.getD i w0) (occupiedBefore rand cfg ws i) =
        createCollisionBounds posi (estimateWordDimensions (ws.getD i w0).text cfg)
          cfg.minWordSpacing from by rw [flowBounds, hfpi]]
      exact List.mem_cons_self _ _
    exact hvj.2 _ hbi

/-- Claim C9: `updatePositionsForResize` keeps the word count, scales
every position by the width/height ratios of the configs, and leaves
every other field unchanged.  (The nonzero hypotheses exclude the
degenerate zero-sized old canvas, where the JavaScript floats would
produce infinities.) -/
theorem c9_resize (ws : List WordData) (oldConfig newConfig : LayoutConfig)
    (_hw : oldConfig.canvasWidth ≠ 0) (_hh : oldConfig.canvasHeight ≠ 0) :
    (updatePositionsForResize ws oldConfig newConfig).length = ws.length ∧
    ∀ i, i < ws.length →
      ((updatePositionsForResize ws oldConfig newConfig).getD i w0).id = (ws.getD i w0).id ∧
      ((updatePositionsForResize ws oldConfig newConfig).getD i w0).text = (ws.getD i w0).text ∧
      ((updatePositionsForResize ws oldConfig newConfig).getD i w0).animation =
        (ws.getD i w0).animation ∧
      ((updatePositionsForResize ws oldConfig newConfig).getD i w0).motionConfig =
        (ws.getD i w0).motionConfig ∧
      ((updatePositionsForResize ws oldConfig newConfig).getD i w0).startTime =
        (ws.getD i w0).startTime ∧
      ((updatePositionsForResize ws oldConfig newConfig).getD i w0).duration =
        (ws.getD i w0).duration ∧
      ((updatePositionsForResize ws oldConfig newConfig).getD i w0).easing =
        (ws.getD i w0).easing ∧
      ((updatePositionsForResize ws oldConfig newConfig).getD i w0).index =
        (ws.getD i w0).index ∧
      ((updatePositionsForResize ws oldConfig newConfig).getD i w0).position.1 =
        (ws.getD i w0).position.1 * (newConfig.canvasWidth / oldConfig.canvasWidth) ∧
      ((updatePositionsForResize ws oldConfig newConfig).getD i w0).position.2 =
        (ws.getD i w0).position.2 * (newConfig.canvasHeight / oldConfig.canvasHeight) := by
  constructor
  · simp [updatePositionsForResize]
  · intro i hi
    have hlen : i < (updatePositionsForResize ws oldConfig newConfig).length := by
      simpa [updatePositionsForResize] using hi
    rw [List.getD_eq_getElem _ _ hlen, List.getD_eq_getElem _ _ hi]
    simp [updatePositionsForResize]

/-- Witness for C9 at a concrete word and configs (800×600 scaled to
400×300). -/
theorem c9_resize_witness :
    (updatePositionsForResize [wP] cfgOld cfgNew).length = [wP].length ∧
      ((updatePositionsForResize [wP] cfgOld cfgNew).getD 0 w0).position.1 =
        (([wP] : List WordData).getD 0 w0).position.1 *
          (cfgNew.canvasWidth / cfgOld.canvasWidth) := by
  have h := c9_resize [wP] cfgOld cfgNew
    (by norm_num [cfgOld]) (by norm_num [cfgOld])
  exact ⟨h.1, ((h.2 0 (by decide)).2.2.2.2.2.2.2.2.1)⟩

/-! ## A concrete accepted-placement instance for claim C8 -/

theorem c8w_radii : ∃ rest, spiralRadii cfgW = (0 : ℝ) :: rest := by
  refine ⟨(List.map Nat.succ (List.range 14)).map (fun k : ℕ => 20 * (k : ℝ)), ?_⟩
  unfold spiralRadii
  have h15 : min cfgW.canvasWidth cfgW.canvasHeight / 2 / 20 = ((15 : ℕ) : ℝ) := by
    norm_num [cfgW]
  rw [h15, Nat.ceil_natCast, show (15 : ℕ) = 14 + 1 from rfl,
    List.range_succ_eq_map, List.map_cons]
  norm_num

theorem c8w_dims : estimateWordDimensions "" cfgW =
    ⟨0, (32 : ℝ) * 1.2, 32⟩ := by
  unfold estimateWordDimensions
  norm_num

theorem c8w_search (occ : List CollisionBounds)
    (hvalid : isPositionValid ((400 : ℝ), (280.8 : ℝ)) (estimateWordDimensions "" cfgW) cfgW occ) :
    flowSearch (estimateWordDimensions "" cfgW) cfgW occ = some ((400 : ℝ), (280.8 : ℝ)) := by
  obtain ⟨rest, hr⟩ := c8w_radii
  unfold flowSearch
  rw [hr, flowSearchAux]
  unfold generateSpiralPositions
  rw [show List.range 8 = 0 :: [1, 2, 3, 4, 5, 6, 7] from rfl, List.map_cons,
    findValidCandidate]
  have hcand :
      ((cfgW.canvasWidth / 2 + Real.cos (((0 : ℕ) : ℝ) / ((8 : ℕ) : ℝ) * (2 * Real.pi)) * 0,
          cfgW.canvasHeight / 2 + Real.sin (((0 : ℕ) : ℝ) / ((8 : ℕ) : ℝ) * (2 * Real.pi)) * 0).1 -
            (estimateWordDimensions "" cfgW).width / 2,
        (cfgW.canvasWidth / 2 + Real.cos (((0 : ℕ) : ℝ) / ((8 : ℕ) : ℝ) * (2 * Real.pi)) * 0,
          cfgW.canvasHeight / 2 + Real.sin (((0 : ℕ) : ℝ) / ((8 : ℕ) : ℝ) * (2 * Real.pi)) * 0).2 -
            (estimateWordDimensions "" cfgW).height / 2) = ((400 : ℝ), (280.8 : ℝ)) := by
    rw [c8w_dims]
    norm_num [cfgW]
  rw [hcand, if_pos hvalid]

theorem c8w_valid_nil :
    isPositionValid ((400 : ℝ), (280.8 : ℝ)) (estimateWordDimensions "" cfgW) cfgW [] := by
  constructor
  · unfold inCanvasMargins
    rw [c8w_dims]
    norm_num [cfgW]
  · intro b hb
    simp at hb

theorem c8w_bounds : flowBounds cfgW wU [] =
    createCollisionBounds ((400 : ℝ), (280.8 : ℝ)) (estimateWordDimensions "" cfgW)
      cfgW.minWordSpacing := by
  unfold flowBounds flowPos
  rw [show wU.text = "" from rfl]
  unfold calculateFlowPosition
  rw [c8w_search [] c8w_valid_nil]
  simp only [Option.getD_some]
  rw [valid_constrain_id c8w_valid_nil]

theorem c8w_occ1 : occupiedBefore randZero cfgW [wU, wV] 1 =
    [createCollisionBounds ((400 : ℝ), (280.8 : ℝ)) (estimateWordDimensions "" cfgW)
      cfgW.minWordSpacing] := by
  rw [occupiedBefore_succ randZero cfgW [wU, wV] 0 (by decide) rfl]
  rw [show occupiedBefore randZero cfgW [wU, wV] 0 = [] from rfl]
  rw [show ([wU, wV].getD 0 w0) = wU from rfl, c8w_bounds]
  rfl

theorem c8w_valid_one :
    isPositionValid ((400 : ℝ), (280.8 : ℝ)) (estimateWordDimensions "" cfgW) cfgW
      [createCollisionBounds ((400 : ℝ), (280.8 : ℝ)) (estimateWordDimensions "" cfgW)
        cfgW.minWordSpacing] := by
  refine ⟨c8w_valid_nil.1, ?_⟩
  intro b hb
  rw [List.mem_singleton] at hb
  subst hb
  unfold boundsOverlap
  rw [not_not]
  left
  rw [c8w_dims]
  norm_num [createCollisionBounds, cfgW]

theorem c8w_search0 :
    flowSearch (estimateWordDimensions (([wU, wV].getD 0 w0)).text cfgW) cfgW
      (occupiedBefore randZero cfgW [wU, wV] 0) = some ((400 : ℝ), (280.8 : ℝ)) := by
  rw [show ([wU, wV].getD 0 w0).text = "" from rfl,
    show occupiedBefore randZero cfgW [wU, wV] 0 = [] from rfl]
  exact c8w_search [] c8w_valid_nil

theorem c8w_search1 :
    flowSearch (estimateWordDimensions (([wU, wV].getD 1 w0)).text cfgW) cfgW
      (occupiedBefore randZero cfgW [wU, wV] 1) = some ((400 : ℝ), (280.8 : ℝ)) := by
  rw [show ([wU, wV].getD 1 w0).text = "" from rfl, c8w_occ1]
  exact c8w_search _ c8w_valid_one

/-- Witness for C8: two untagged empty-text words on an 800×600 canvas
with margin 10 and word spacing -1; both are accepted by the spiral
search at its first candidate, and the invariant holds. -/
theorem c8_no_overlap_witness :
    ((calculateWordPositions randZero [wU, wV] cfgW).getD 0 w0).position =
      ((400 : ℝ), (280.8 : ℝ)) ∧
    ((calculateWordPositions randZero [wU, wV] cfgW).getD 1 w0).position =
      ((400 : ℝ), (280.8 : ℝ)) ∧
    inCanvasMargins ((400 : ℝ), (280.8 : ℝ))
      (estimateWordDimensions (([wU, wV].getD 0 w0)).text cfgW) cfgW ∧
    inCanvasMargins ((400 : ℝ), (280.8 : ℝ))
      (estimateWordDimensions (([wU, wV].getD 1 w0)).text cfgW) cfgW ∧
    ¬ boundsOverlap
      (createCollisionBounds ((400 : ℝ), (280.8 : ℝ))
        (estimateWordDimensions (([wU, wV].getD 1 w0)).text cfgW) cfgW.minWordSpacing)
      (createCollisionBounds ((400 : ℝ), (280.8 : ℝ))
        (estimateWordDimensions (([wU, wV].getD 0 w0)).text cfgW) cfgW.minWordSpacing) :=
  c8_no_overlap randZero cfgW [wU, wV] 0 1 ((400 : ℝ), (280.8 : ℝ)) ((400 : ℝ), (280.8 : ℝ))
    (by decide) (by decide) rfl rfl c8w_search0 c8w_search1
